import Mathlib

set_option linter.unusedVariables false
set_option maxRecDepth 100000

/-! Shallow embedding of the concurrent Petri-net kernel of this repository:
the marking data model and transition kernel of `petri_net.c`, the reference
manufacturing topology of `manufacturing_process.c`, the QC worker selection
loop of `tasks.c`, the status snapshot of `status_server.c`, and the operator
token injection of `main_blinky.c`.  Machine integers are modelled as `Int`
(no arithmetic here approaches the `int` overflow range), the fixed C arrays
`places[MAX_PLACES]` and `transitions[MAX_TRANSITIONS]` as functions out of
`Fin`, and the five-slot arc arrays of a transition as lists of length five
with the sentinel `-1` marking a free slot, exactly as in the source. -/

abbrev MAX_PLACES : Nat := 15
abbrev MAX_TRANSITIONS : Nat := 20

/-- `Place` from `petri_net.h` (the mutex handle carries no marking state and
is omitted from the sequential embedding). -/
structure Place where
  tokens : Int
  name : String
  deriving DecidableEq

/-- `Transition` from `petri_net.h`: five input arc slots and five output arc
slots, a slot being free when its place index is `-1`. -/
structure Transition where
  input_places : List Int
  output_places : List Int
  input_weights : List Int
  output_weights : List Int
  name : String
  enabled : Bool
  deriving DecidableEq

/-- `PetriNet` from `petri_net.h`. -/
structure PetriNet where
  places : Fin MAX_PLACES → Place
  transitions : Fin MAX_TRANSITIONS → Transition
  num_places : Nat
  num_transitions : Nat

/-- Reading `places[i].tokens` under the place mutex; valid indices only
(out-of-range access is undefined behaviour in the C source and never
exercised by the program). -/
def getTokP (pl : Fin MAX_PLACES → Place) (i : Int) : Int :=
  if h : 0 ≤ i ∧ i < (MAX_PLACES : Int) then (pl ⟨i.toNat, by omega⟩).tokens else 0

/-- Writing `places[i].tokens` under the place mutex. -/
def setTokP (pl : Fin MAX_PLACES → Place) (i : Int) (v : Int) : Fin MAX_PLACES → Place :=
  if h : 0 ≤ i ∧ i < (MAX_PLACES : Int) then
    Function.update pl ⟨i.toNat, by omega⟩ { pl ⟨i.toNat, by omega⟩ with tokens := v }
  else pl

/-- The transition slot value produced by `init_petri_net`. -/
def emptyTransition : Transition :=
  { input_places := [-1, -1, -1, -1, -1]
    output_places := [-1, -1, -1, -1, -1]
    input_weights := [0, 0, 0, 0, 0]
    output_weights := [0, 0, 0, 0, 0]
    name := ""
    enabled := false }

/-- Reading `manufacturing_net.transitions[i]`. -/
def getTrans (net : PetriNet) (i : Int) : Transition :=
  if h : 0 ≤ i ∧ i < (MAX_TRANSITIONS : Int) then net.transitions ⟨i.toNat, by omega⟩
  else emptyTransition

/-- Writing `manufacturing_net.transitions[i]`. -/
def setTrans (net : PetriNet) (i : Int) (t : Transition) : PetriNet :=
  if h : 0 ≤ i ∧ i < (MAX_TRANSITIONS : Int) then
    { net with transitions := Function.update net.transitions ⟨i.toNat, by omega⟩ t }
  else net

/-- `init_petri_net` from `petri_net.c`: zero counts, all place tokens 0, all
arc slots free. -/
def init_petri_net : PetriNet :=
  { places := fun _ => { tokens := 0, name := "" }
    transitions := fun _ => emptyTransition
    num_places := 0
    num_transitions := 0 }

/-- `add_place` from `petri_net.c`: at the capacity cap it logs and returns
`-1` leaving the net untouched; otherwise it stores the (truncated) name and
the initial token count unvalidated and returns the new index. -/
def add_place (net : PetriNet) (name : String) (initial_tokens : Int) :
    PetriNet × Int :=
  if h : net.num_places ≥ MAX_PLACES then (net, -1)
  else
    ({ net with
        places := Function.update net.places ⟨net.num_places, by omega⟩
          { name := name.take 31, tokens := initial_tokens }
        num_places := net.num_places + 1 },
      (net.num_places : Int))

/-- `add_transition` from `petri_net.c`: at the capacity cap it logs and
returns `-1` leaving the net untouched; otherwise it names the next
pre-initialised slot and returns its index. -/
def add_transition (net : PetriNet) (name : String) : PetriNet × Int :=
  if h : net.num_transitions ≥ MAX_TRANSITIONS then (net, -1)
  else
    ({ net with
        transitions := Function.update net.transitions ⟨net.num_transitions, by omega⟩
          { net.transitions ⟨net.num_transitions, by omega⟩ with name := name.take 31 }
        num_transitions := net.num_transitions + 1 },
      (net.num_transitions : Int))

/-- The arc-slot scan shared by `add_arc_input` and `add_arc_output`: walk the
five parallel slots, fill the first free one (place index `-1`), and silently
do nothing when every slot is taken. -/
def set_first_free (pls ws : List Int) (place_idx weight : Int) :
    List Int × List Int :=
  match pls, ws with
  | [], rest => ([], rest)
  | p :: ps, [] => (p :: ps, [])
  | p :: ps, w :: wrest =>
    if p = -1 then (place_idx :: ps, weight :: wrest)
    else
      let r := set_first_free ps wrest place_idx weight
      (p :: r.1, w :: r.2)

/-- `add_arc_input` from `petri_net.c`. -/
def add_arc_input (net : PetriNet) (trans_idx place_idx weight : Int) : PetriNet :=
  let t := getTrans net trans_idx
  let r := set_first_free t.input_places t.input_weights place_idx weight
  setTrans net trans_idx { t with input_places := r.1, input_weights := r.2 }

/-- `add_arc_output` from `petri_net.c`. -/
def add_arc_output (net : PetriNet) (trans_idx place_idx weight : Int) : PetriNet :=
  let t := getTrans net trans_idx
  let r := set_first_free t.output_places t.output_weights place_idx weight
  setTrans net trans_idx { t with output_places := r.1, output_weights := r.2 }

/-- The loop body of `is_transition_enabled`: walk the input arc slots until
the first free slot, failing as soon as a place holds fewer tokens than the
arc weight. -/
def check_arcs (pl : Fin MAX_PLACES → Place) : List Int → List Int → Bool
  | [], _ => true
  | _ :: _, [] => true
  | p :: ps, w :: ws =>
    if p = -1 then true
    else if getTokP pl p < w then false
    else check_arcs pl ps ws

/-- `is_transition_enabled` from `petri_net.c`. -/
def is_transition_enabled (net : PetriNet) (trans_idx : Int) : Bool :=
  let t := getTrans net trans_idx
  check_arcs net.places t.input_places t.input_weights

/-- The first mutation loop of `fire_transition`: decrement each input place
by its arc weight, stopping at the first free slot. -/
def debit_arcs (pl : Fin MAX_PLACES → Place) : List Int → List Int → (Fin MAX_PLACES → Place)
  | [], _ => pl
  | _ :: _, [] => pl
  | p :: ps, w :: ws =>
    if p = -1 then pl
    else debit_arcs (setTokP pl p (getTokP pl p - w)) ps ws

/-- The second mutation loop of `fire_transition`: increment each output place
by its arc weight, stopping at the first free slot. -/
def credit_arcs (pl : Fin MAX_PLACES → Place) : List Int → List Int → (Fin MAX_PLACES → Place)
  | [], _ => pl
  | _ :: _, [] => pl
  | p :: ps, w :: ws =>
    if p = -1 then pl
    else credit_arcs (setTokP pl p (getTokP pl p + w)) ps ws

/-- `fire_transition` from `petri_net.c`, with the whole body executed under
the net mutex: re-check enabledness, bail out with `false` on failure, else
debit all inputs then credit all outputs and report `true`. -/
def fire_transition (net : PetriNet) (trans_idx : Int) : PetriNet × Bool :=
  if ¬ is_transition_enabled net trans_idx then (net, false)
  else
    let t := getTrans net trans_idx
    let pl1 := debit_arcs net.places t.input_places t.input_weights
    let pl2 := credit_arcs pl1 t.output_places t.output_weights
    ({ net with places := pl2 }, true)

/-- `get_place_tokens` from `petri_net.c`. -/
def get_place_tokens (net : PetriNet) (place_idx : Int) : Int :=
  getTokP net.places place_idx

/-- The shared mutable program state: the global net together with the global
`status_dirty` flag of `main_blinky.c`. -/
structure SysState where
  net : PetriNet
  status_dirty : Bool

/-- `fire_transition` at the program level: on success the caller side of
`petri_net.c` stores `true` into `status_dirty`; on failure it returns before
reaching that store. -/
def fire_transition_sys (s : SysState) (trans_idx : Int) : SysState × Bool :=
  let r := fire_transition s.net trans_idx
  if r.2 then ({ net := r.1, status_dirty := true }, true)
  else ({ s with net := r.1 }, false)

/-- Place indices from the `Places` enum of `main_blinky.c`. -/
def P_RAW_MATERIAL : Int := 0
def P_READY_TO_PROCESS : Int := 1
def P_PROCESSING : Int := 2
def P_PROCESSED : Int := 3
def P_READY_TO_ASSEMBLE : Int := 4
def P_ASSEMBLED : Int := 5
def P_QUALITY_CHECK_1 : Int := 6
def P_POST_QC1_BUFFER : Int := 7
def P_READY_FOR_INDIVIDUAL_PACKAGE : Int := 8
def P_INDIVIDUALLY_PACKAGED : Int := 9
def P_FINAL_PACKAGED : Int := 10
def P_PAINTED : Int := 11
def P_QUALITY_CHECK_2 : Int := 12
def P_WORKER : Int := 13
def P_REWORK_BIN : Int := 14

/-- Transition indices from the `Transitions` enum of `main_blinky.c`. -/
def T_LOAD_MATERIAL : Int := 0
def T_START_PROCESSING : Int := 1
def T_FINISH_PROCESSING : Int := 2
def T_START_ASSEMBLY : Int := 3
def T_FINISH_ASSEMBLY : Int := 4
def T_START_QC_1 : Int := 5
def T_PASS_QC_1 : Int := 6
def T_FAIL_QC_1 : Int := 7
def T_SELECT_TO_PAINT : Int := 8
def T_SKIP_PAINT : Int := 9
def T_START_QC_2 : Int := 10
def T_PASS_QC_2 : Int := 11
def T_FAIL_QC_2 : Int := 12
def T_INDIVIDUAL_PACKAGE : Int := 13
def T_BULK_PACKAGE : Int := 14
def T_REWORK_PROCESS : Int := 15

/-- The `+` keystroke handler of `main_blinky.c`: increment the Raw Material
tokens under the place mutex and raise the dirty flag. -/
def inject_raw_material (s : SysState) : SysState :=
  { net := { s.net with
      places := setTokP s.net.places P_RAW_MATERIAL
        (getTokP s.net.places P_RAW_MATERIAL + 1) }
    status_dirty := true }

/-- `setup_manufacturing_process` from `manufacturing_process.c`, applied to
the freshly initialised net (returned place and transition indices are
discarded by the C source, which addresses everything through the enums). -/
def setup_manufacturing_process (n0 : PetriNet) : PetriNet :=
  let n := (add_place n0 "Raw Material" 20).1
  let n := (add_place n "Ready to Process" 0).1
  let n := (add_place n "Processing" 0).1
  let n := (add_place n "Processed" 0).1
  let n := (add_place n "Ready to Assemble" 0).1
  let n := (add_place n "Assembled" 0).1
  let n := (add_place n "QC Active 1" 0).1
  let n := (add_place n "Passed QC1 / Decision" 0).1
  let n := (add_place n "Ready for Individual Package" 0).1
  let n := (add_place n "Individually Packaged" 0).1
  let n := (add_place n "Final Packaged" 0).1
  let n := (add_place n "Painted" 0).1
  let n := (add_place n "QC Active 2" 0).1
  let n := (add_place n "Worker" 3).1
  let n := (add_place n "Rework Bin" 0).1
  let n := (add_transition n "Load Material").1
  let n := add_arc_input n T_LOAD_MATERIAL P_RAW_MATERIAL 1
  let n := add_arc_output n T_LOAD_MATERIAL P_READY_TO_PROCESS 1
  let n := (add_transition n "Start Processing").1
  let n := add_arc_input n T_START_PROCESSING P_READY_TO_PROCESS 1
  let n := add_arc_output n T_START_PROCESSING P_PROCESSING 1
  let n := (add_transition n "Finish Processing").1
  let n := add_arc_input n T_FINISH_PROCESSING P_PROCESSING 1
  let n := add_arc_output n T_FINISH_PROCESSING P_PROCESSED 1
  let n := (add_transition n "Start Assembly").1
  let n := add_arc_input n T_START_ASSEMBLY P_PROCESSED 2
  let n := add_arc_output n T_START_ASSEMBLY P_READY_TO_ASSEMBLE 2
  let n := (add_transition n "Finish Assembly").1
  let n := add_arc_input n T_FINISH_ASSEMBLY P_READY_TO_ASSEMBLE 2
  let n := add_arc_output n T_FINISH_ASSEMBLY P_ASSEMBLED 1
  let n := (add_transition n "Start QC 1").1
  let n := add_arc_input n T_START_QC_1 P_ASSEMBLED 1
  let n := add_arc_input n T_START_QC_1 P_WORKER 1
  let n := add_arc_output n T_START_QC_1 P_QUALITY_CHECK_1 1
  let n := (add_transition n "Pass QC 1").1
  let n := add_arc_input n T_PASS_QC_1 P_QUALITY_CHECK_1 1
  let n := add_arc_output n T_PASS_QC_1 P_POST_QC1_BUFFER 1
  let n := add_arc_output n T_PASS_QC_1 P_WORKER 1
  let n := (add_transition n "Fail QC 1").1
  let n := add_arc_input n T_FAIL_QC_1 P_QUALITY_CHECK_1 1
  let n := add_arc_output n T_FAIL_QC_1 P_REWORK_BIN 1
  let n := add_arc_output n T_FAIL_QC_1 P_WORKER 1
  let n := (add_transition n "Select to Paint").1
  let n := add_arc_input n T_SELECT_TO_PAINT P_POST_QC1_BUFFER 1
  let n := add_arc_output n T_SELECT_TO_PAINT P_PAINTED 1
  let n := (add_transition n "Skip Paint").1
  let n := add_arc_input n T_SKIP_PAINT P_POST_QC1_BUFFER 1
  let n := add_arc_output n T_SKIP_PAINT P_READY_FOR_INDIVIDUAL_PACKAGE 1
  let n := (add_transition n "Start QC 2").1
  let n := add_arc_input n T_START_QC_2 P_PAINTED 1
  let n := add_arc_input n T_START_QC_2 P_WORKER 1
  let n := add_arc_output n T_START_QC_2 P_QUALITY_CHECK_2 1
  let n := (add_transition n "Pass QC 2").1
  let n := add_arc_input n T_PASS_QC_2 P_QUALITY_CHECK_2 1
  let n := add_arc_output n T_PASS_QC_2 P_READY_FOR_INDIVIDUAL_PACKAGE 1
  let n := add_arc_output n T_PASS_QC_2 P_WORKER 1
  let n := (add_transition n "Fail QC 2").1
  let n := add_arc_input n T_FAIL_QC_2 P_QUALITY_CHECK_2 1
  let n := add_arc_output n T_FAIL_QC_2 P_REWORK_BIN 1
  let n := add_arc_output n T_FAIL_QC_2 P_WORKER 1
  let n := (add_transition n "Individual Package").1
  let n := add_arc_input n T_INDIVIDUAL_PACKAGE P_READY_FOR_INDIVIDUAL_PACKAGE 1
  let n := add_arc_output n T_INDIVIDUAL_PACKAGE P_INDIVIDUALLY_PACKAGED 1
  let n := (add_transition n "Bulk Package").1
  let n := add_arc_input n T_BULK_PACKAGE P_INDIVIDUALLY_PACKAGED 5
  let n := add_arc_output n T_BULK_PACKAGE P_FINAL_PACKAGED 1
  let n := (add_transition n "Rework Process").1
  let n := add_arc_input n T_REWORK_PROCESS P_REWORK_BIN 1
  let n := add_arc_input n T_REWORK_PROCESS P_WORKER 1
  let n := add_arc_output n T_REWORK_PROCESS P_PROCESSED 1
  let n := add_arc_output n T_REWORK_PROCESS P_WORKER 1
  n

/-- The manufacturing net as it stands when setup returns: the reference
initial marking Raw Material = 20, Worker = 3, all other places 0. -/
def mfgNet : PetriNet := setup_manufacturing_process init_petri_net

/-- The program state right after setup (`status_dirty` initialised `false`
in `main_blinky.c`). -/
def initialSys : SysState := { net := mfgNet, status_dirty := false }

/-- The manufacturing topology carrying an arbitrary marking `m`: reachable
states differ from `mfgNet` only in their token counts. -/
def withMarking (m : Fin MAX_PLACES → Int) : PetriNet :=
  { mfgNet with places := fun i => { mfgNet.places i with tokens := m i } }

/-- The arc list a transition's five parallel slots denote: the `(place,
weight)` pairs up to the first free slot, exactly the pairs the kernel loops
of `petri_net.c` visit before their `break`. -/
def collectArcs : List Int → List Int → List (Int × Int)
  | [], _ => []
  | _ :: _, [] => []
  | p :: ps, w :: ws => if p = -1 then [] else (p, w) :: collectArcs ps ws

/-- The input arcs of transition `t` as the kernel traverses them. -/
def inputArcs (net : PetriNet) (t : Int) : List (Int × Int) :=
  collectArcs (getTrans net t).input_places (getTrans net t).input_weights

/-- The output arcs of transition `t` as the kernel traverses them. -/
def outputArcs (net : PetriNet) (t : Int) : List (Int × Int) :=
  collectArcs (getTrans net t).output_places (getTrans net t).output_weights

/-- Total weight an arc list carries at place `q` (arcs touching the same
place add up). -/
def arcDelta (arcs : List (Int × Int)) (q : Int) : Int :=
  ((arcs.filter fun a => a.1 == q).map fun a => a.2).sum

/-- One atomic per-place-mutex critical section of `fire_transition`: the
token update `tokens += delta` of a single place (`petri_net.c` lines 119-121
debit with `delta = -w`, lines 130-132 credit with `delta = +w`). -/
def apply_write (pl : Fin MAX_PLACES → Place) (u : Int × Int) :
    Fin MAX_PLACES → Place :=
  setTokP pl u.1 (getTokP pl u.1 + u.2)

/-- The sequence of atomic per-place writes a successful `fire_transition`
performs: all input debits, then all output credits, each under only that
place's mutex (the net mutex is held throughout, but readers that skip the
net mutex can interleave between any two of these). -/
def fire_write_steps (net : PetriNet) (t : Int) : List (Int × Int) :=
  ((inputArcs net t).map fun a => (a.1, -a.2)) ++ (outputArcs net t).map fun a => (a.1, a.2)

/-- The token vector `build_status_payload` of `status_server.c` reports: for
each registered place index in order, one `get_place_tokens` call (each call
takes and releases only that place's mutex). -/
def snapshot_tokens (net : PetriNet) : List Int :=
  (List.range net.num_places).map fun i => get_place_tokens net ((i : Nat) : Int)

/-- The transition-selection header of one `task_quality_control` iteration
(`tasks.c` lines 120-138): returns `(start, pass, fail, worked)` exactly as
the four locals are left by the two `is_transition_enabled` tests, QC2 first. -/
def qc_select (net : PetriNet) : Int × Int × Int × Bool :=
  if is_transition_enabled net T_START_QC_2 then
    (T_START_QC_2, T_PASS_QC_2, T_FAIL_QC_2, true)
  else if is_transition_enabled net T_START_QC_1 then
    (T_START_QC_1, T_PASS_QC_1, T_FAIL_QC_1, true)
  else (-1, -1, -1, false)

/-- One full `task_quality_control` iteration (`tasks.c` lines 119-167),
with the QC delay elided (it changes no marking) and the 5% failure roll
passed in as `fail_roll`.  Returns the new state and the list of transitions
the iteration attempted to fire, in order. -/
def qc_iteration (s : SysState) (fail_roll : Bool) : SysState × List Int :=
  let sel := qc_select s.net
  if sel.2.2.2 = false then (s, [])
  else
    let r1 := fire_transition_sys s sel.1
    if r1.2 = false then (r1.1, [sel.1])
    else
      let result_transition := if fail_roll then sel.2.2.1 else sel.2.1
      let r2 := fire_transition_sys r1.1 result_transition
      (r2.1, [sel.1, result_transition])

/-- One atomic step of the system as the worker tasks and the keyboard hook
drive it: a successful `fire_transition` of a transition index within
capacity, or a `+` injection. -/
inductive SysStep : SysState → SysState → Prop
  | fire (s : SysState) (t : Fin MAX_TRANSITIONS)
      (hs : (fire_transition_sys s ((t : Nat) : Int)).2 = true) :
      SysStep s (fire_transition_sys s ((t : Nat) : Int)).1
  | inject (s : SysState) : SysStep s (inject_raw_material s)

/-- States reachable from the freshly set-up system by successful fires and
injections. -/
def SysReachable (s : SysState) : Prop :=
  Relation.ReflTransGen SysStep initialSys s

/-- One atomic step by successful fires only (no operator injection). -/
inductive FireStep : SysState → SysState → Prop
  | fire (s : SysState) (t : Fin MAX_TRANSITIONS)
      (hs : (fire_transition_sys s ((t : Nat) : Int)).2 = true) :
      FireStep s (fire_transition_sys s ((t : Nat) : Int)).1

/-- States reachable from the freshly set-up system by successful fires. -/
def FireReachable (s : SysState) : Prop :=
  Relation.ReflTransGen FireStep initialSys s

/-- The worker-resource sum of the reference net: free Workers plus the two
QC-active places that hold a Worker token while a check is underway.  (The
rework transition consumes and reproduces its Worker token inside one atomic
fire, so no Worker is ever held by pending rework between markings.) -/
def workerSum (net : PetriNet) : Int :=
  get_place_tokens net P_WORKER + get_place_tokens net P_QUALITY_CHECK_1 +
    get_place_tokens net P_QUALITY_CHECK_2

/-- A two-input-arcs-on-one-place net probing the additivity claim: one place
holding 1 token, one transition with two input arcs from that place, each of
weight 1. -/
def dupArcNet : PetriNet :=
  let n := (add_place init_petri_net "P" 1).1
  let n := (add_transition n "T").1
  let n := add_arc_input n 0 0 1
  add_arc_input n 0 0 1

/-- The manufacturing net with four further transitions registered, filling
the transition table to its cap of 20. -/
def mfgNetFull : PetriNet :=
  (add_transition (add_transition (add_transition
    (add_transition mfgNet "Extra 1").1 "Extra 2").1 "Extra 3").1 "Extra 4").1

/-- The reference initial marking as a vector: Raw Material = 20, Worker = 3,
everything else 0. -/
def refMarking : Fin MAX_PLACES → Int :=
  ![20, 0, 0, 0, 0, 0, 0, 0, 0, 0, 0, 0, 0, 3, 0]

/-- A marking with one Painted item, one Assembled item and one free Worker:
both Start QC 1 and Start QC 2 are enabled here. -/
def qcBothMarking : Fin MAX_PLACES → Int :=
  ![0, 0, 0, 0, 0, 1, 0, 0, 0, 0, 0, 1, 0, 1, 0]

example : get_place_tokens mfgNet P_RAW_MATERIAL = 20 := by decide
example : get_place_tokens mfgNet P_WORKER = 3 := by decide
example : get_place_tokens mfgNet P_PROCESSED = 0 := by decide
example : mfgNet.num_places = 15 := by decide
example : mfgNet.num_transitions = 16 := by decide
example : (getTrans mfgNet T_REWORK_PROCESS).input_places = [14, 13, -1, -1, -1] := by decide
example : (getTrans mfgNet T_BULK_PACKAGE).input_weights = [5, 0, 0, 0, 0] := by decide
example : (fire_transition mfgNet T_LOAD_MATERIAL).2 = true := by decide
example : (fire_transition mfgNet T_START_PROCESSING).2 = false := by decide
example : get_place_tokens (fire_transition mfgNet T_LOAD_MATERIAL).1 P_RAW_MATERIAL = 19 := by
  decide
example : get_place_tokens (fire_transition mfgNet T_LOAD_MATERIAL).1 P_READY_TO_PROCESS = 1 := by
  decide

/-! ### Kernel lemmas: reads over writes, loop characterisations. -/

/-- A `setTokP` at a valid index is observed pointwise by `getTokP`. -/
theorem getTokP_setTokP (pl : Fin MAX_PLACES → Place) (p v q : Int)
    (hp : 0 ≤ p ∧ p < (MAX_PLACES : Int)) :
    getTokP (setTokP pl p v) q = if p = q then v else getTokP pl q := by
  unfold getTokP setTokP
  rw [dif_pos hp]
  by_cases hq : 0 ≤ q ∧ q < (MAX_PLACES : Int)
  · rw [dif_pos hq, dif_pos hq]
    rcases eq_or_ne p q with rfl | hne
    · simp [Function.update_apply]
    · rw [if_neg hne, Function.update_apply, if_neg]
      intro hc
      have h2 : q.toNat = p.toNat := congrArg Fin.val hc
      omega
  · rw [dif_neg hq, dif_neg hq, if_neg]
    intro hc
    exact hq (hc ▸ hp)

/-- The enabledness loop succeeds exactly when every arc it visits is
covered by the current marking. -/
theorem check_arcs_eq_all (pl : Fin MAX_PLACES → Place) (ips : List Int) :
    ∀ iws : List Int,
      check_arcs pl ips iws
        = (collectArcs ips iws).all fun a => decide (a.2 ≤ getTokP pl a.1) := by
  induction ips with
  | nil => intro iws; simp [check_arcs, collectArcs]
  | cons p ps ih =>
    intro iws
    cases iws with
    | nil => simp [check_arcs, collectArcs]
    | cons w ws =>
      by_cases h1 : p = -1
      · simp [check_arcs, collectArcs, h1]
      · by_cases h2 : getTokP pl p < w
        · have h3 : ¬ (w ≤ getTokP pl p) := by omega
          simp [check_arcs, collectArcs, h1, h2, h3]
        · have h3 : w ≤ getTokP pl p := by omega
          simp [check_arcs, collectArcs, h1, h2, h3, ih]

theorem arcDelta_nil (q : Int) : arcDelta [] q = 0 := rfl

theorem arcDelta_cons (a : Int × Int) (l : List (Int × Int)) (q : Int) :
    arcDelta (a :: l) q = (if a.1 = q then a.2 else 0) + arcDelta l q := by
  by_cases h : a.1 = q
  · simp [arcDelta, List.filter_cons, h]
  · simp [arcDelta, List.filter_cons, h]

theorem arcDelta_eq_zero (l : List (Int × Int)) (q : Int)
    (h : ∀ a ∈ l, a.1 ≠ q) : arcDelta l q = 0 := by
  induction l with
  | nil => rfl
  | cons a rest ih =>
    have hr := ih fun b hb => h b (List.mem_cons_of_mem a hb)
    rw [arcDelta_cons, if_neg (h a (List.mem_cons_self a rest)), hr]
    omega

theorem arcDelta_nonneg (l : List (Int × Int)) (q : Int)
    (h : ∀ a ∈ l, 0 ≤ a.2) : 0 ≤ arcDelta l q := by
  induction l with
  | nil => simp [arcDelta_nil]
  | cons a rest ih =>
    have h1 := h a (List.mem_cons_self a rest)
    have h2 := ih fun b hb => h b (List.mem_cons_of_mem a hb)
    rw [arcDelta_cons]
    split_ifs <;> omega

/-- When no place occurs on two arcs of the list, a marking covering every
arc covers the summed demand at each place. -/
theorem arcDelta_le_tok (pl : Fin MAX_PLACES → Place) (l : List (Int × Int))
    (hnd : (l.map Prod.fst).Nodup)
    (hen : ∀ a ∈ l, a.2 ≤ getTokP pl a.1)
    (q : Int) (hq : 0 ≤ getTokP pl q) :
    arcDelta l q ≤ getTokP pl q := by
  induction l with
  | nil => simpa [arcDelta_nil] using hq
  | cons a rest ih =>
    rw [List.map_cons, List.nodup_cons] at hnd
    rw [arcDelta_cons]
    by_cases h : a.1 = q
    · have hz : arcDelta rest q = 0 := by
        apply arcDelta_eq_zero
        intro b hb hbq
        apply hnd.1
        rw [h, ← hbq]
        exact List.mem_map_of_mem Prod.fst hb
      have ha := hen a (List.mem_cons_self a rest)
      rw [h] at ha
      rw [if_pos h, hz]
      omega
    · have hr := ih hnd.2 (fun b hb => hen b (List.mem_cons_of_mem a hb))
      rw [if_neg h]
      omega

/-- The input-debit loop shifts every place down by the total input demand. -/
theorem getTokP_debit_arcs (ips : List Int) :
    ∀ (iws : List Int) (pl : Fin MAX_PLACES → Place) (q : Int),
      (∀ a ∈ collectArcs ips iws, 0 ≤ a.1 ∧ a.1 < (MAX_PLACES : Int)) →
      getTokP (debit_arcs pl ips iws) q
        = getTokP pl q - arcDelta (collectArcs ips iws) q := by
  induction ips with
  | nil => intro iws pl q hv; simp [debit_arcs, collectArcs, arcDelta_nil]
  | cons p ps ih =>
    intro iws pl q hv
    cases iws with
    | nil => simp [debit_arcs, collectArcs, arcDelta_nil]
    | cons w ws =>
      by_cases h1 : p = -1
      · simp [debit_arcs, collectArcs, h1, arcDelta_nil]
      · have hc : collectArcs (p :: ps) (w :: ws) = (p, w) :: collectArcs ps ws := by
          simp [collectArcs, h1]
        have hd : debit_arcs pl (p :: ps) (w :: ws)
            = debit_arcs (setTokP pl p (getTokP pl p - w)) ps ws := by
          simp [debit_arcs, h1]
        rw [hc] at hv ⊢
        have hp := hv (p, w) (List.mem_cons_self _ _)
        rw [hd, ih ws _ q (fun a ha => hv a (List.mem_cons_of_mem _ ha)),
          getTokP_setTokP pl p _ q hp, arcDelta_cons]
        by_cases h2 : p = q
        · subst h2
          rw [if_pos rfl, if_pos rfl]
          omega
        · rw [if_neg h2, if_neg h2]
          omega

/-- The output-credit loop shifts every place up by the total output supply. -/
theorem getTokP_credit_arcs (ops : List Int) :
    ∀ (ows : List Int) (pl : Fin MAX_PLACES → Place) (q : Int),
      (∀ a ∈ collectArcs ops ows, 0 ≤ a.1 ∧ a.1 < (MAX_PLACES : Int)) →
      getTokP (credit_arcs pl ops ows) q
        = getTokP pl q + arcDelta (collectArcs ops ows) q := by
  induction ops with
  | nil => intro ows pl q hv; simp [credit_arcs, collectArcs, arcDelta_nil]
  | cons p ps ih =>
    intro ows pl q hv
    cases ows with
    | nil => simp [credit_arcs, collectArcs, arcDelta_nil]
    | cons w ws =>
      by_cases h1 : p = -1
      · simp [credit_arcs, collectArcs, h1, arcDelta_nil]
      · have hc : collectArcs (p :: ps) (w :: ws) = (p, w) :: collectArcs ps ws := by
          simp [collectArcs, h1]
        have hd : credit_arcs pl (p :: ps) (w :: ws)
            = credit_arcs (setTokP pl p (getTokP pl p + w)) ps ws := by
          simp [credit_arcs, h1]
        rw [hc] at hv ⊢
        have hp := hv (p, w) (List.mem_cons_self _ _)
        rw [hd, ih ws _ q (fun a ha => hv a (List.mem_cons_of_mem _ ha)),
          getTokP_setTokP pl p _ q hp, arcDelta_cons]
        by_cases h2 : p = q
        · subst h2
          rw [if_pos rfl, if_pos rfl]
          omega
        · rw [if_neg h2, if_neg h2]
          omega

/-! ### Fire-level lemmas. -/

/-- `fire_transition` reports success exactly when the guarded re-check of
enabledness succeeds. -/
theorem fire_transition_snd (net : PetriNet) (t : Int) :
    (fire_transition net t).2 = is_transition_enabled net t := by
  unfold fire_transition
  by_cases h : is_transition_enabled net t <;> simp [h]

/-- A rejected fire leaves the net exactly as it was. -/
theorem fire_transition_fst_of_not_enabled (net : PetriNet) (t : Int)
    (h : is_transition_enabled net t = false) :
    (fire_transition net t).1 = net := by
  unfold fire_transition
  simp [h]

/-- A successful fire runs the debit loop and then the credit loop. -/
theorem fire_transition_places (net : PetriNet) (t : Int)
    (h : is_transition_enabled net t = true) :
    (fire_transition net t).1.places
      = credit_arcs
          (debit_arcs net.places (getTrans net t).input_places
            (getTrans net t).input_weights)
          (getTrans net t).output_places (getTrans net t).output_weights := by
  unfold fire_transition
  simp [h]

/-- `fire_transition` never touches the topology. -/
theorem fire_transition_transitions (net : PetriNet) (t : Int) :
    (fire_transition net t).1.transitions = net.transitions := by
  unfold fire_transition
  by_cases h : is_transition_enabled net t <;> simp [h]

/-- Enabledness unfolded to its per-arc meaning. -/
theorem is_transition_enabled_iff (net : PetriNet) (t : Int) :
    is_transition_enabled net t = true ↔
      ∀ a ∈ inputArcs net t, a.2 ≤ getTokP net.places a.1 := by
  unfold is_transition_enabled inputArcs
  rw [check_arcs_eq_all]
  simp [List.all_eq_true]

/-- The per-place balance of a successful fire: every place moves by exactly
the output supply minus the input demand of the fired transition. -/
theorem fire_transition_delta (net : PetriNet) (t : Int)
    (hv : ∀ a ∈ inputArcs net t, 0 ≤ a.1 ∧ a.1 < (MAX_PLACES : Int))
    (hvo : ∀ a ∈ outputArcs net t, 0 ≤ a.1 ∧ a.1 < (MAX_PLACES : Int))
    (h : (fire_transition net t).2 = true) (q : Int) :
    get_place_tokens (fire_transition net t).1 q
      = get_place_tokens net q - arcDelta (inputArcs net t) q
          + arcDelta (outputArcs net t) q := by
  rw [fire_transition_snd] at h
  unfold get_place_tokens
  rw [fire_transition_places net t h]
  simp only [inputArcs, outputArcs] at hv hvo ⊢
  rw [getTokP_credit_arcs _ _ _ _ hvo, getTokP_debit_arcs _ _ _ _ hv]

theorem fire_transition_sys_snd (s : SysState) (t : Int) :
    (fire_transition_sys s t).2 = is_transition_enabled s.net t := by
  unfold fire_transition_sys
  rw [← fire_transition_snd]
  by_cases h : (fire_transition s.net t).2 <;> simp [h]

theorem fire_transition_sys_net (s : SysState) (t : Int) :
    (fire_transition_sys s t).1.net = (fire_transition s.net t).1 := by
  unfold fire_transition_sys
  by_cases h : (fire_transition s.net t).2 <;> simp [h]

/-- A successful system-level fire stores `true` into `status_dirty`. -/
theorem fire_transition_sys_dirty (s : SysState) (t : Int)
    (h : (fire_transition_sys s t).2 = true) :
    (fire_transition_sys s t).1.status_dirty = true := by
  unfold fire_transition_sys at h ⊢
  by_cases h2 : (fire_transition s.net t).2 <;> simp [h2] at h ⊢

/-! ### Facts about the reference topology, established by evaluation. -/

/-- Every input arc of every transition slot names a place index in range. -/
theorem mfg_input_arcs_valid :
    ∀ t : Fin MAX_TRANSITIONS, ∀ a ∈ inputArcs mfgNet ((t : Nat) : Int),
      0 ≤ a.1 ∧ a.1 < (MAX_PLACES : Int) := by decide

/-- Every output arc of every transition slot names a place index in range. -/
theorem mfg_output_arcs_valid :
    ∀ t : Fin MAX_TRANSITIONS, ∀ a ∈ outputArcs mfgNet ((t : Nat) : Int),
      0 ≤ a.1 ∧ a.1 < (MAX_PLACES : Int) := by decide

/-- No transition of the reference net has two input arcs from one place. -/
theorem mfg_input_fst_nodup :
    ∀ t : Fin MAX_TRANSITIONS,
      ((inputArcs mfgNet ((t : Nat) : Int)).map Prod.fst).Nodup := by decide

/-- Every output arc weight of the reference net is non-negative. -/
theorem mfg_output_wt_nonneg :
    ∀ t : Fin MAX_TRANSITIONS, ∀ a ∈ outputArcs mfgNet ((t : Nat) : Int),
      0 ≤ a.2 := by decide

/-- Every transition slot of the net is balanced on the three worker-holding
places: Worker plus the two QC-active places gain exactly what they lose. -/
theorem mfg_worker_delta_zero :
    ∀ t : Fin MAX_TRANSITIONS,
      arcDelta (outputArcs mfgNet ((t : Nat) : Int)) P_QUALITY_CHECK_1
        + arcDelta (outputArcs mfgNet ((t : Nat) : Int)) P_QUALITY_CHECK_2
        + arcDelta (outputArcs mfgNet ((t : Nat) : Int)) P_WORKER
        - arcDelta (inputArcs mfgNet ((t : Nat) : Int)) P_QUALITY_CHECK_1
        - arcDelta (inputArcs mfgNet ((t : Nat) : Int)) P_QUALITY_CHECK_2
        - arcDelta (inputArcs mfgNet ((t : Nat) : Int)) P_WORKER = 0 := by decide

/-! ### Reachability machinery. -/

/-- A step never mutates the topology (fires rewrite only `places`, the
injection only the Raw Material count). -/
theorem sysStep_preserves_transitions {s s2 : SysState} (h : SysStep s s2) :
    s2.net.transitions = s.net.transitions := by
  cases h with
  | fire t hs => rw [fire_transition_sys_net, fire_transition_transitions]
  | inject => rfl

/-- Topology immutability along any run: every reachable state still carries
the manufacturing topology built during setup. -/
theorem sysReachable_transitions (s : SysState) (hs : SysReachable s) :
    s.net.transitions = mfgNet.transitions := by
  induction hs with
  | refl => rfl
  | tail hab hstep ih => rw [sysStep_preserves_transitions hstep, ih]

/-- Fires-only runs are in particular runs with injections allowed. -/
theorem fireReachable_sysReachable (s : SysState) (h : FireReachable s) :
    SysReachable s := by
  refine Relation.ReflTransGen.mono ?_ h
  intro a b hab
  cases hab with
  | fire t ht => exact SysStep.fire _ t ht

/-- The initial marking is non-negative. -/
theorem initial_nonneg : ∀ q : Int, 0 ≤ getTokP initialSys.net.places q := by
  intro q
  unfold getTokP
  split
  case isTrue h =>
    have hfin : ∀ i : Fin MAX_PLACES, 0 ≤ (initialSys.net.places i).tokens := by decide
    exact hfin _
  case isFalse h => exact le_refl 0

/-- On any state still carrying the manufacturing topology, a fire preserves
non-negativity of the marking: enabledness bounds the input demand (inputs
touch pairwise-distinct places in this net) and every output credit is
non-negative. -/
theorem fire_preserves_nonneg {s : SysState}
    (htop : s.net.transitions = mfgNet.transitions)
    (hnn : ∀ q : Int, 0 ≤ getTokP s.net.places q) (t : Fin MAX_TRANSITIONS)
    (q : Int) :
    0 ≤ getTokP (fire_transition_sys s ((t : Nat) : Int)).1.net.places q := by
  rw [fire_transition_sys_net]
  have harcs : inputArcs s.net ((t : Nat) : Int) = inputArcs mfgNet ((t : Nat) : Int) := by
    unfold inputArcs getTrans
    simp only [htop]
  have harcso : outputArcs s.net ((t : Nat) : Int) = outputArcs mfgNet ((t : Nat) : Int) := by
    unfold outputArcs getTrans
    simp only [htop]
  by_cases h : (fire_transition s.net ((t : Nat) : Int)).2
  · have hd : getTokP (fire_transition s.net ((t : Nat) : Int)).1.places q
        = getTokP s.net.places q - arcDelta (inputArcs s.net ((t : Nat) : Int)) q
            + arcDelta (outputArcs s.net ((t : Nat) : Int)) q :=
      fire_transition_delta s.net ((t : Nat) : Int)
        (by rw [harcs]; exact mfg_input_arcs_valid t)
        (by rw [harcso]; exact mfg_output_arcs_valid t) h q
    have hen : ∀ a ∈ inputArcs s.net ((t : Nat) : Int), a.2 ≤ getTokP s.net.places a.1 :=
      (is_transition_enabled_iff s.net ((t : Nat) : Int)).1
        (by rw [← fire_transition_snd]; exact h)
    have hle : arcDelta (inputArcs s.net ((t : Nat) : Int)) q ≤ getTokP s.net.places q := by
      apply arcDelta_le_tok s.net.places _ _ hen q (hnn q)
      rw [harcs]
      exact mfg_input_fst_nodup t
    have hge : 0 ≤ arcDelta (outputArcs s.net ((t : Nat) : Int)) q := by
      apply arcDelta_nonneg
      rw [harcso]
      exact mfg_output_wt_nonneg t
    rw [hd]
    omega
  · rw [fire_transition_fst_of_not_enabled s.net _ (by
      rw [← fire_transition_snd]
      exact Bool.not_eq_true _ ▸ h)]
    exact hnn q

/-- The `+` injection only adds a token, so it too preserves non-negativity. -/
theorem inject_preserves_nonneg {s : SysState}
    (hnn : ∀ q : Int, 0 ≤ getTokP s.net.places q) (q : Int) :
    0 ≤ getTokP (inject_raw_material s).net.places q := by
  show 0 ≤ getTokP (setTokP s.net.places P_RAW_MATERIAL
    (getTokP s.net.places P_RAW_MATERIAL + 1)) q
  rw [getTokP_setTokP _ _ _ _ (by decide)]
  split_ifs with h
  · have := hnn P_RAW_MATERIAL
    omega
  · exact hnn q

/-- Non-negativity holds in every reachable state. -/
theorem sysReachable_nonneg (s : SysState) (hs : SysReachable s) :
    ∀ q : Int, 0 ≤ getTokP s.net.places q := by
  induction hs with
  | refl => exact initial_nonneg
  | tail hab hstep ih =>
    have htop := sysReachable_transitions _ hab
    cases hstep with
    | fire t hfire => exact fun q => fire_preserves_nonneg htop ih t q
    | inject => exact fun q => inject_preserves_nonneg ih q

/-! ### Worker-resource sum machinery. -/

/-- On any state still carrying the manufacturing topology, a fire leaves the
worker-resource sum unchanged: each transition slot is balanced on the three
worker-holding places. -/
theorem fire_preserves_workerSum {s : SysState}
    (htop : s.net.transitions = mfgNet.transitions) (t : Fin MAX_TRANSITIONS) :
    workerSum (fire_transition_sys s ((t : Nat) : Int)).1.net = workerSum s.net := by
  rw [fire_transition_sys_net]
  have harcs : inputArcs s.net ((t : Nat) : Int) = inputArcs mfgNet ((t : Nat) : Int) := by
    unfold inputArcs getTrans
    simp only [htop]
  have harcso : outputArcs s.net ((t : Nat) : Int) = outputArcs mfgNet ((t : Nat) : Int) := by
    unfold outputArcs getTrans
    simp only [htop]
  by_cases h : (fire_transition s.net ((t : Nat) : Int)).2
  · have hv : ∀ a ∈ inputArcs s.net ((t : Nat) : Int),
        0 ≤ a.1 ∧ a.1 < (MAX_PLACES : Int) := by
      rw [harcs]
      exact mfg_input_arcs_valid t
    have hvo : ∀ a ∈ outputArcs s.net ((t : Nat) : Int),
        0 ≤ a.1 ∧ a.1 < (MAX_PLACES : Int) := by
      rw [harcso]
      exact mfg_output_arcs_valid t
    have hd1 := fire_transition_delta s.net ((t : Nat) : Int) hv hvo h P_QUALITY_CHECK_1
    have hd2 := fire_transition_delta s.net ((t : Nat) : Int) hv hvo h P_QUALITY_CHECK_2
    have hdw := fire_transition_delta s.net ((t : Nat) : Int) hv hvo h P_WORKER
    have hz := mfg_worker_delta_zero t
    rw [harcs, harcso] at hd1 hd2 hdw
    unfold workerSum
    rw [hd1, hd2, hdw]
    omega
  · rw [fire_transition_fst_of_not_enabled s.net _ (by
      rw [← fire_transition_snd]
      exact Bool.not_eq_true _ ▸ h)]

/-- The worker-resource sum is 3 in every state reachable by fires. -/
theorem fireReachable_workerSum (s : SysState) (hs : FireReachable s) :
    workerSum s.net = 3 := by
  induction hs with
  | refl => decide
  | tail hab hstep ih =>
    have htop := sysReachable_transitions _ (fireReachable_sysReachable _ hab)
    cases hstep with
    | fire t hfire => rw [fire_preserves_workerSum htop t, ih]

/-! ### Arbitrary markings over the reference topology. -/

/-- Reading a place of `withMarking m` returns `m` at that place. -/
theorem get_place_tokens_withMarking (m : Fin MAX_PLACES → Int)
    (q : Fin MAX_PLACES) :
    get_place_tokens (withMarking m) ((q : Nat) : Int) = m q := by
  have hq : (q : Nat) < MAX_PLACES := q.isLt
  unfold get_place_tokens getTokP withMarking
  rw [dif_pos ⟨by omega, by omega⟩]
  simp

/-- `withMarking` changes no topology. -/
theorem getTrans_withMarking (m : Fin MAX_PLACES → Int) (t : Int) :
    getTrans (withMarking m) t = getTrans mfgNet t := rfl

/-! ### The fire loops as sequences of per-place atomic writes. -/

/-- The debit loop is the left fold of the atomic per-place writes
`tokens -= w` over the visited input arcs. -/
theorem debit_arcs_eq_foldl (ips : List Int) :
    ∀ (iws : List Int) (pl : Fin MAX_PLACES → Place),
      debit_arcs pl ips iws
        = ((collectArcs ips iws).map fun a => (a.1, -a.2)).foldl apply_write pl := by
  induction ips with
  | nil => intro iws pl; simp [debit_arcs, collectArcs]
  | cons p ps ih =>
    intro iws pl
    cases iws with
    | nil => simp [debit_arcs, collectArcs]
    | cons w ws =>
      by_cases h : p = -1
      · simp [debit_arcs, collectArcs, h]
      · have hc : collectArcs (p :: ps) (w :: ws) = (p, w) :: collectArcs ps ws := by
          simp [collectArcs, h]
        have hd : debit_arcs pl (p :: ps) (w :: ws)
            = debit_arcs (setTokP pl p (getTokP pl p - w)) ps ws := by
          simp [debit_arcs, h]
        rw [hd, hc, List.map_cons, List.foldl_cons, ih]
        have ha : apply_write pl (p, -w) = setTokP pl p (getTokP pl p - w) := by
          unfold apply_write
          simp [Int.sub_eq_add_neg]
        rw [ha]

/-- The credit loop is the left fold of the atomic per-place writes
`tokens += w` over the visited output arcs. -/
theorem credit_arcs_eq_foldl (ops : List Int) :
    ∀ (ows : List Int) (pl : Fin MAX_PLACES → Place),
      credit_arcs pl ops ows
        = ((collectArcs ops ows).map fun a => (a.1, a.2)).foldl apply_write pl := by
  induction ops with
  | nil => intro ows pl; simp [credit_arcs, collectArcs]
  | cons p ps ih =>
    intro ows pl
    cases ows with
    | nil => simp [credit_arcs, collectArcs]
    | cons w ws =>
      by_cases h : p = -1
      · simp [credit_arcs, collectArcs, h]
      · have hc : collectArcs (p :: ps) (w :: ws) = (p, w) :: collectArcs ps ws := by
          simp [collectArcs, h]
        have hd : credit_arcs pl (p :: ps) (w :: ws)
            = credit_arcs (setTokP pl p (getTokP pl p + w)) ps ws := by
          simp [credit_arcs, h]
        rw [hd, hc, List.map_cons, List.foldl_cons, ih]
        rfl

/-- A successful fire's marking mutation is exactly the sequence of atomic
per-place-mutex writes `fire_write_steps`, in order: all input debits, then
all output credits.  A reader holding no net mutex can be scheduled between
any two of them. -/
theorem fire_transition_write_steps (net : PetriNet) (t : Int)
    (h : is_transition_enabled net t = true) :
    (fire_transition net t).1.places
      = (fire_write_steps net t).foldl apply_write net.places := by
  rw [fire_transition_places net t h]
  unfold fire_write_steps
  rw [List.foldl_append, debit_arcs_eq_foldl, credit_arcs_eq_foldl]
  rfl

/-! ### Sentinel-headed arc lists. -/

theorem check_arcs_sentinel (pl : Fin MAX_PLACES → Place) (ips iws : List Int)
    (h : ips.head? = some (-1)) : check_arcs pl ips iws = true := by
  cases ips with
  | nil => simp at h
  | cons p ps =>
    simp at h
    cases iws with
    | nil => simp [check_arcs]
    | cons w ws => simp [check_arcs, h]

theorem debit_arcs_sentinel (pl : Fin MAX_PLACES → Place) (ips iws : List Int)
    (h : ips.head? = some (-1)) : debit_arcs pl ips iws = pl := by
  cases ips with
  | nil => simp at h
  | cons p ps =>
    simp at h
    cases iws with
    | nil => simp [debit_arcs]
    | cons w ws => simp [debit_arcs, h]

theorem credit_arcs_sentinel (pl : Fin MAX_PLACES → Place) (ops ows : List Int)
    (h : ops.head? = some (-1)) : credit_arcs pl ops ows = pl := by
  cases ops with
  | nil => simp at h
  | cons p ps =>
    simp at h
    cases ows with
    | nil => simp [credit_arcs]
    | cons w ws => simp [credit_arcs, h]

/-! ### The claims. -/

/-- C1: for every transition of the constructed net and every marking over
its topology, a `fire_transition` returning `true` moves every place by
exactly the output supply minus the input demand of that transition, and a
`fire_transition` returning `false` leaves every place unchanged. -/
theorem spec_C1_all_or_nothing (m : Fin MAX_PLACES → Int) (t : Fin 16) :
    ((fire_transition (withMarking m) ((t : Nat) : Int)).2 = true →
      ∀ q : Fin MAX_PLACES,
        get_place_tokens (fire_transition (withMarking m) ((t : Nat) : Int)).1
            ((q : Nat) : Int)
          = m q - arcDelta (inputArcs mfgNet ((t : Nat) : Int)) ((q : Nat) : Int)
              + arcDelta (outputArcs mfgNet ((t : Nat) : Int)) ((q : Nat) : Int)) ∧
    ((fire_transition (withMarking m) ((t : Nat) : Int)).2 = false →
      ∀ q : Fin MAX_PLACES,
        get_place_tokens (fire_transition (withMarking m) ((t : Nat) : Int)).1
          ((q : Nat) : Int) = m q) := by
  have harcs : inputArcs (withMarking m) ((t : Nat) : Int)
      = inputArcs mfgNet ((t : Nat) : Int) := rfl
  have harcso : outputArcs (withMarking m) ((t : Nat) : Int)
      = outputArcs mfgNet ((t : Nat) : Int) := rfl
  constructor
  · intro h q
    have hv : ∀ a ∈ inputArcs (withMarking m) ((t : Nat) : Int),
        0 ≤ a.1 ∧ a.1 < (MAX_PLACES : Int) := by
      rw [harcs]
      exact mfg_input_arcs_valid ⟨(t : Nat), by
        show (t : Nat) < 20
        have := t.isLt
        omega⟩
    have hvo : ∀ a ∈ outputArcs (withMarking m) ((t : Nat) : Int),
        0 ≤ a.1 ∧ a.1 < (MAX_PLACES : Int) := by
      rw [harcso]
      exact mfg_output_arcs_valid ⟨(t : Nat), by
        show (t : Nat) < 20
        have := t.isLt
        omega⟩
    have hd := fire_transition_delta (withMarking m) ((t : Nat) : Int) hv hvo h
      ((q : Nat) : Int)
    rw [harcs, harcso] at hd
    rw [hd, get_place_tokens_withMarking]
  · intro h q
    rw [fire_transition_fst_of_not_enabled (withMarking m) _ (by
      rw [← fire_transition_snd]
      exact h)]
    exact get_place_tokens_withMarking m q

theorem spec_C1_witness :
    ((fire_transition (withMarking refMarking) (((0 : Fin 16) : Nat) : Int)).2 = true) ∧
    (get_place_tokens (fire_transition (withMarking refMarking)
          (((0 : Fin 16) : Nat) : Int)).1 (((0 : Fin MAX_PLACES) : Nat) : Int)
      = refMarking 0
          - arcDelta (inputArcs mfgNet (((0 : Fin 16) : Nat) : Int))
              (((0 : Fin MAX_PLACES) : Nat) : Int)
          + arcDelta (outputArcs mfgNet (((0 : Fin 16) : Nat) : Int))
              (((0 : Fin MAX_PLACES) : Nat) : Int)) ∧
    ((fire_transition (withMarking refMarking) (((1 : Fin 16) : Nat) : Int)).2 = false) ∧
    (get_place_tokens (fire_transition (withMarking refMarking)
          (((1 : Fin 16) : Nat) : Int)).1 (((5 : Fin MAX_PLACES) : Nat) : Int)
      = refMarking 5) :=
  ⟨by decide, (spec_C1_all_or_nothing refMarking 0).1 (by decide) 0, by decide,
    (spec_C1_all_or_nothing refMarking 1).2 (by decide) 5⟩

/-- C2: every place count is non-negative in every state reachable from the
reference initial marking by successful fires and `+` injections. -/
theorem spec_C2_nonneg (s : SysState) (hs : SysReachable s) (q : Fin MAX_PLACES) :
    0 ≤ get_place_tokens s.net ((q : Nat) : Int) :=
  sysReachable_nonneg s hs ((q : Nat) : Int)

theorem spec_C2_witness :
    0 ≤ get_place_tokens (inject_raw_material
        (fire_transition_sys initialSys (((0 : Fin MAX_TRANSITIONS) : Nat) : Int)).1).net
      (((0 : Fin MAX_PLACES) : Nat) : Int) :=
  spec_C2_nonneg _
    (Relation.ReflTransGen.tail
      (Relation.ReflTransGen.single (SysStep.fire initialSys 0 (by decide)))
      (SysStep.inject _)) 0

/-- C3, counterexample: in `dupArcNet` the only transition has two input arcs
from place 0, each of weight 1, and place 0 holds a single token.  The claim
says the transition is enabled only when the place holds at least the summed
weight 2; the kernel nevertheless reports it enabled (each arc is checked
against the unmodified marking), and the successful fire then debits the
summed weight, driving the count to -1. -/
theorem spec_C3_counterexample :
    inputArcs dupArcNet 0 = [(0, 1), (0, 1)] ∧
    arcDelta (inputArcs dupArcNet 0) 0 = 2 ∧
    get_place_tokens dupArcNet 0 = 1 ∧
    is_transition_enabled dupArcNet 0 = true ∧
    (fire_transition dupArcNet 0).2 = true ∧
    get_place_tokens (fire_transition dupArcNet 0).1 0 = -1 := by
  refine ⟨by decide, by decide, by decide, by decide, by decide, by decide⟩

/-- C3, amended: multiple arcs between one place and one transition are
additive in the firing but not in the enabledness test.  A successful
`fire_transition` decrements the place by the summed weight of its arcs, but
the transition is already enabled whenever the place covers each arc weight
individually (so the marking can go negative when it is below the sum). -/
theorem spec_C3_additive (net : PetriNet) (t : Int)
    (hv : ∀ a ∈ inputArcs net t, 0 ≤ a.1 ∧ a.1 < (MAX_PLACES : Int))
    (hvo : ∀ a ∈ outputArcs net t, 0 ≤ a.1 ∧ a.1 < (MAX_PLACES : Int)) :
    (is_transition_enabled net t = true ↔
      ∀ a ∈ inputArcs net t, a.2 ≤ get_place_tokens net a.1) ∧
    ((fire_transition net t).2 = true → ∀ q : Int,
      get_place_tokens (fire_transition net t).1 q
        = get_place_tokens net q - arcDelta (inputArcs net t) q
            + arcDelta (outputArcs net t) q) := by
  constructor
  · exact is_transition_enabled_iff net t
  · intro h q
    exact fire_transition_delta net t hv hvo h q

theorem spec_C3_additive_witness :
    (is_transition_enabled dupArcNet 0 = true ↔
      ∀ a ∈ inputArcs dupArcNet 0, a.2 ≤ get_place_tokens dupArcNet a.1) ∧
    get_place_tokens (fire_transition dupArcNet 0).1 0
      = get_place_tokens dupArcNet 0 - arcDelta (inputArcs dupArcNet 0) 0
          + arcDelta (outputArcs dupArcNet 0) 0 :=
  ⟨(spec_C3_additive dupArcNet 0 (by decide) (by decide)).1,
    (spec_C3_additive dupArcNet 0 (by decide) (by decide)).2 (by decide) 0⟩

/-- C4: in the sequential view (no interleaving between the check and the
call), `fire_transition` succeeds exactly when `is_transition_enabled` holds,
for every transition of the constructed net over any marking: the guarded
re-check inside `fire_transition` evaluates the same predicate on the same
marking. -/
theorem spec_C4_coherence (m : Fin MAX_PLACES → Int) (t : Fin 16) :
    (fire_transition (withMarking m) ((t : Nat) : Int)).2
      = is_transition_enabled (withMarking m) ((t : Nat) : Int) :=
  fire_transition_snd (withMarking m) ((t : Nat) : Int)

/-- C5: the snapshot is not read in one guard scope, and a torn snapshot is
schedulable.  A successful fire is the ordered sequence `fire_write_steps` of
per-place-mutex critical sections (first conjunct, grounding the
decomposition in `fire_transition` itself); for Load Material those are the
debit of Raw Material and then the credit of Ready to Process.
`build_status_payload` reads each place through `get_place_tokens`, holding
only that place's mutex and never the net mutex, so the whole snapshot can be
scheduled between the two write steps: it then reports Raw Material already
debited (19) while Ready to Process is not yet credited (0) — a marking that
matches neither the pre-fire snapshot (20, 0, …) nor the post-fire snapshot
(19, 1, …). -/
theorem spec_C5_torn_snapshot :
    fire_write_steps mfgNet T_LOAD_MATERIAL = [(0, -1), (1, 1)] ∧
    (fire_transition mfgNet T_LOAD_MATERIAL).1.places
      = (fire_write_steps mfgNet T_LOAD_MATERIAL).foldl apply_write mfgNet.places ∧
    snapshot_tokens mfgNet = [20, 0, 0, 0, 0, 0, 0, 0, 0, 0, 0, 0, 0, 3, 0] ∧
    snapshot_tokens (fire_transition mfgNet T_LOAD_MATERIAL).1
      = [19, 1, 0, 0, 0, 0, 0, 0, 0, 0, 0, 0, 0, 3, 0] ∧
    snapshot_tokens { mfgNet with places := apply_write mfgNet.places (0, -1) }
      = [19, 0, 0, 0, 0, 0, 0, 0, 0, 0, 0, 0, 0, 3, 0] :=
  ⟨by decide, fire_transition_write_steps mfgNet T_LOAD_MATERIAL (by decide),
    by decide, by decide, by decide⟩

/-- C6: in every marking reachable by successful fires from the reference
initial marking, free Workers plus the two QC-active places sum to the
initial Worker count 3, and every transition of the reference net preserves
this sum over any marking.  (Rework consumes and reproduces its Worker token
inside one atomic fire, so the Worker tokens held by pending rework are 0 at
every marking.) -/
theorem spec_C6_worker_bound :
    (∀ s : SysState, FireReachable s → workerSum s.net = 3) ∧
    (∀ (m : Fin MAX_PLACES → Int) (t : Fin 16),
      workerSum (fire_transition (withMarking m) ((t : Nat) : Int)).1
        = workerSum (withMarking m)) := by
  constructor
  · exact fireReachable_workerSum
  · intro m t
    have h := fire_preserves_workerSum (s := ⟨withMarking m, false⟩) rfl
      ⟨(t : Nat), by
        show (t : Nat) < 20
        have := t.isLt
        omega⟩
    rw [fire_transition_sys_net] at h
    exact h

theorem spec_C6_witness :
    workerSum (fire_transition_sys initialSys
      (((0 : Fin MAX_TRANSITIONS) : Nat) : Int)).1.net = 3 ∧
    workerSum (fire_transition (withMarking qcBothMarking)
        (((5 : Fin 16) : Nat) : Int)).1
      = workerSum (withMarking qcBothMarking) :=
  ⟨spec_C6_worker_bound.1 _
      (Relation.ReflTransGen.single (FireStep.fire initialSys 0 (by decide))),
    spec_C6_worker_bound.2 qcBothMarking 5⟩

/-- C7: at the capacity caps, `add_place` and `add_transition` log, return
`-1` and leave the whole net (counts, places, transitions, marking)
untouched; being total functions returning into the caller, setup simply
continues. -/
theorem spec_C7_capacity (net : PetriNet) (pname tname : String) (k : Int) :
    (net.num_places = MAX_PLACES → add_place net pname k = (net, -1)) ∧
    (net.num_transitions = MAX_TRANSITIONS → add_transition net tname = (net, -1)) := by
  constructor
  · intro h
    unfold add_place
    rw [dif_pos (by omega)]
  · intro h
    unfold add_transition
    rw [dif_pos (by omega)]

theorem spec_C7_witness :
    mfgNet.num_places = MAX_PLACES ∧
    add_place mfgNet "Overflow" 7 = (mfgNet, -1) ∧
    mfgNetFull.num_transitions = MAX_TRANSITIONS ∧
    add_transition mfgNetFull "Overflow" = (mfgNetFull, -1) :=
  ⟨by decide, (spec_C7_capacity mfgNet "Overflow" "Overflow" 7).1 (by decide),
    by decide, (spec_C7_capacity mfgNetFull "Overflow" "Overflow" 7).2 (by decide)⟩

/-- C8: whenever Start QC 2 is enabled, one QC-worker iteration fires
Start QC 2 and then exactly one of Pass QC 2 / Fail QC 2 (by the failure
roll); the QC 1 triple is attempted only in iterations where Start QC 2 is
not enabled. -/
theorem spec_C8_qc_priority (s : SysState) (fr : Bool) :
    (is_transition_enabled s.net T_START_QC_2 = true →
      (qc_iteration s fr).2
        = [T_START_QC_2, if fr then T_FAIL_QC_2 else T_PASS_QC_2]) ∧
    (∀ x ∈ (qc_iteration s fr).2,
      (x = T_START_QC_1 ∨ x = T_PASS_QC_1 ∨ x = T_FAIL_QC_1) →
        is_transition_enabled s.net T_START_QC_2 = false) := by
  by_cases h2 : is_transition_enabled s.net T_START_QC_2
  · have hsel : qc_select s.net = (T_START_QC_2, T_PASS_QC_2, T_FAIL_QC_2, true) := by
      unfold qc_select
      rw [if_pos h2]
    have hfire : (fire_transition_sys s T_START_QC_2).2 = true := by
      rw [fire_transition_sys_snd]
      exact h2
    have hlist : (qc_iteration s fr).2
        = [T_START_QC_2, if fr then T_FAIL_QC_2 else T_PASS_QC_2] := by
      unfold qc_iteration
      rw [hsel]
      simp [hfire]
    refine ⟨fun _ => hlist, ?_⟩
    intro x hx hqc1
    exfalso
    rw [hlist] at hx
    cases fr <;>
      simp [T_START_QC_2, T_PASS_QC_2, T_FAIL_QC_2] at hx <;>
      simp [T_START_QC_1, T_PASS_QC_1, T_FAIL_QC_1] at hqc1 <;>
      rcases hx with hx | hx <;> rcases hqc1 with h | h | h <;> omega
  · have h2f : is_transition_enabled s.net T_START_QC_2 = false := by
      simp only [Bool.not_eq_true] at h2
      exact h2
    exact ⟨fun h => absurd h h2, fun x hx hqc1 => h2f⟩

theorem spec_C8_witness :
    is_transition_enabled (withMarking qcBothMarking) T_START_QC_1 = true ∧
    is_transition_enabled (withMarking qcBothMarking) T_START_QC_2 = true ∧
    (qc_iteration ⟨withMarking qcBothMarking, false⟩ false).2
      = [T_START_QC_2, T_PASS_QC_2] :=
  ⟨by decide, by decide, by
    have h := (spec_C8_qc_priority ⟨withMarking qcBothMarking, false⟩ false).1 (by decide)
    simpa using h⟩

/-- C9: a transition slot whose first input slot is free is enabled under any
marking, and firing it succeeds, raises the dirty flag, and (when its first
output slot is also free) changes no place. -/
theorem spec_C9_empty_inputs (s : SysState) (t : Int) (h0 : 0 ≤ t)
    (h1 : t < (MAX_TRANSITIONS : Int))
    (hin : (getTrans s.net t).input_places.head? = some (-1)) :
    is_transition_enabled s.net t = true ∧
    (fire_transition_sys s t).2 = true ∧
    (fire_transition_sys s t).1.status_dirty = true ∧
    ((getTrans s.net t).output_places.head? = some (-1) →
      ∀ q : Int,
        get_place_tokens (fire_transition_sys s t).1.net q
          = get_place_tokens s.net q) := by
  have hen : is_transition_enabled s.net t = true :=
    check_arcs_sentinel s.net.places _ _ hin
  have hsnd : (fire_transition_sys s t).2 = true := by
    rw [fire_transition_sys_snd]
    exact hen
  refine ⟨hen, hsnd, fire_transition_sys_dirty s t hsnd, ?_⟩
  intro hout q
  rw [fire_transition_sys_net]
  unfold get_place_tokens
  rw [fire_transition_places s.net t hen, debit_arcs_sentinel _ _ _ hin,
    credit_arcs_sentinel _ _ _ hout]

theorem spec_C9_witness :
    (getTrans initialSys.net 16).input_places.head? = some (-1) ∧
    is_transition_enabled initialSys.net 16 = true ∧
    (fire_transition_sys initialSys 16).2 = true ∧
    (fire_transition_sys initialSys 16).1.status_dirty = true ∧
    get_place_tokens (fire_transition_sys initialSys 16).1.net 0
      = get_place_tokens initialSys.net 0 :=
  ⟨by decide,
    (spec_C9_empty_inputs initialSys 16 (by decide) (by decide) (by decide)).1,
    (spec_C9_empty_inputs initialSys 16 (by decide) (by decide) (by decide)).2.1,
    (spec_C9_empty_inputs initialSys 16 (by decide) (by decide) (by decide)).2.2.1,
    (spec_C9_empty_inputs initialSys 16 (by decide) (by decide) (by decide)).2.2.2
      (by decide) 0⟩

/-- C10: below the cap, `add_place` accepts any initial token count without
validation — negative included — returning the new index, on which
`get_place_tokens` then reads back exactly the stored count. -/
theorem spec_C10_unvalidated_tokens (net : PetriNet) (name : String) (k : Int)
    (h : net.num_places < MAX_PLACES) :
    (add_place net name k).2 = (net.num_places : Int) ∧
    get_place_tokens (add_place net name k).1 (net.num_places : Int) = k := by
  unfold add_place
  rw [dif_neg (by omega)]
  refine ⟨rfl, ?_⟩
  unfold get_place_tokens getTokP
  rw [dif_pos ⟨by omega, by omega⟩]
  simp

theorem spec_C10_witness :
    init_petri_net.num_places < MAX_PLACES ∧ ((-5 : Int) < 0) ∧
    (add_place init_petri_net "Negative" (-5)).2 = (init_petri_net.num_places : Int) ∧
    get_place_tokens (add_place init_petri_net "Negative" (-5)).1
      (init_petri_net.num_places : Int) = -5 :=
  ⟨by decide, by decide,
    (spec_C10_unvalidated_tokens init_petri_net "Negative" (-5) (by decide)).1,
    (spec_C10_unvalidated_tokens init_petri_net "Negative" (-5) (by decide)).2⟩
